import Mathlib

/-!
Verification of the snowflake ID generator (package `snowflake`).

The Go source is shallowly embedded: `uint64` values are natural numbers,
every operation that can overflow is followed by `% U64` (`U64 = 2 ^ 64`),
Go's shift semantics (a shift count of 64 or more yields 0 on a 64-bit
operand) are captured by `shl64` / `shr64`, and the signed-negation mask
trick `^(int64(-1) << bits)` is captured by `not64` / `maskOf` on the
64-bit two's-complement bit pattern.  The fallible constructor `New`
returns `Except NewError Generator`.  The clock read inside `Next` is
modelled by passing the raw reading `now` (the `uint64` bit pattern of
`time.Now().UnixNano()`) as an explicit argument.
-/

/-- The modulus of 64-bit unsigned arithmetic. -/
def U64 : Nat := 2 ^ 64

/-- Go `x << s` on `uint64`: the result is truncated to 64 bits, and a
shift count of 64 or more yields 0 (which agrees with `x * 2 ^ s % 2 ^ 64`
for any `x < 2 ^ 64`). -/
def shl64 (x s : Nat) : Nat :=
  if 64 ≤ s then 0 else (x <<< s) % U64

/-- Go `x >> s` on `uint64`: logical right shift; a shift count of 64 or
more yields 0 (which agrees with `x / 2 ^ s` for any `x < 2 ^ 64`). -/
def shr64 (x s : Nat) : Nat :=
  if 64 ≤ s then 0 else x >>> s

/-- Go `a - b` on `uint64`: wrapping subtraction modulo `2 ^ 64`. -/
def sub64 (a b : Nat) : Nat :=
  (a + U64 - b % U64) % U64

/-- Go `^x` (bitwise NOT) on a 64-bit pattern `x < 2 ^ 64`. -/
def not64 (x : Nat) : Nat :=
  U64 - 1 - x

/-- The bit pattern of Go `uint64(^(int64(-1) << bits))`: the pattern of
`int64(-1)` is `2 ^ 64 - 1`, the signed left shift has the same bit
pattern as the unsigned one, and the conversion to `uint64` keeps the
pattern. -/
def maskOf (bits : Nat) : Nat :=
  not64 (shl64 (U64 - 1) bits)

/-- Go constant `DefaultMachineBits = 10`. -/
def DefaultMachineBits : Nat := 10

/-- Go constant `DefaultSequenceBits = 12`. -/
def DefaultSequenceBits : Nat := 12

/-- Go constant `MaxBits = 63`. -/
def MaxBits : Nat := 63

/-- The `Config` struct of the Go source (all fields `uint64`). -/
structure Config where
  MachineID : Nat
  EpochStartUnixSeconds : Nat
  MachineBits : Nat
  SequenceBits : Nat
  TimeBits : Nat
deriving DecidableEq

/-- The two construction-time errors of the Go source.  The out-of-range
error carries the computed `machineMax`, which the Go code interpolates
into its message. -/
inductive NewError where
  | invalidBitSum : NewError
  | invalidMachineID : (machineMax : Nat) → NewError
deriving DecidableEq

/-- The exact message text each `NewError` renders to, as produced by
`errors.New` / `errors.Errorf` in the Go source (`%d` is decimal). -/
def NewError.message : NewError → String
  | NewError.invalidBitSum =>
      "invalid config: SequenceBits + MachineBits + TimeBits must equal 63"
  | NewError.invalidMachineID machineMax =>
      "invalid machine id; must be 0 ≤ id < " ++ toString machineMax

/-- The `Generator` struct of the Go source, minus the mutex (`Next` is
modelled as a pure state transformer, which is what the critical section
computes).  All fields are `uint64` values. -/
structure Generator where
  time : Nat
  seq : Nat
  machineIDShifted : Nat
  epochStartNano : Nat
  machineBits : Nat
  sequenceBits : Nat
  timeBits : Nat
  machineShift : Nat
  timeShift : Nat
  sequenceMask : Nat
  timeMask : Nat
  nanoSecondsShift : Nat
deriving DecidableEq

/-- The Go constructor `New`, line for line: zero-valued bit widths get
their defaults (the `timeBits` default `MaxBits - machineBits -
sequenceBits` wraps, as all Go `uint64` arithmetic does), the bit-width
sum is checked modulo `2 ^ 64`, and the machine ID is checked against
`^(int64(-1) << machineBits)`.  `time` and `seq` start at the Go zero
value 0. -/
def New (config : Config) : Except NewError Generator :=
  let epochStartNano := config.EpochStartUnixSeconds * 1000000000 % U64
  let machineBits := if config.MachineBits = 0 then DefaultMachineBits else config.MachineBits
  let sequenceBits := if config.SequenceBits = 0 then DefaultSequenceBits else config.SequenceBits
  let timeBits :=
    if config.TimeBits = 0 then sub64 (sub64 MaxBits machineBits) sequenceBits
    else config.TimeBits
  if (sequenceBits + machineBits + timeBits) % U64 ≠ MaxBits then
    Except.error NewError.invalidBitSum
  else
    let nanoSecondsShift := sub64 64 timeBits
    let machineShift := sequenceBits
    let timeShift := (sequenceBits + machineBits) % U64
    let machineMax := maskOf machineBits
    if config.MachineID > machineMax then
      Except.error (NewError.invalidMachineID machineMax)
    else
      Except.ok
        { time := 0
          seq := 0
          machineIDShifted := shl64 config.MachineID machineShift
          epochStartNano := epochStartNano
          machineBits := machineBits
          sequenceBits := sequenceBits
          timeBits := timeBits
          machineShift := machineShift
          timeShift := timeShift
          sequenceMask := maskOf sequenceBits
          timeMask := maskOf timeBits
          nanoSecondsShift := nanoSecondsShift }

/-- The Go accessor `MachineID`: `machineIDShifted >> machineShift`. -/
def Generator.MachineID (g : Generator) : Nat :=
  shr64 g.machineIDShifted g.machineShift

/-- The Go method `generateTime`, with the clock reading `now` (the
`uint64` bit pattern of `time.Now().UnixNano()`) passed explicitly:
`((now - epochStartNano) >> nanoSecondsShift) & timeMask`. -/
def Generator.generateTime (g : Generator) (now : Nat) : Nat :=
  (shr64 (sub64 now g.epochStartNano) g.nanoSecondsShift) &&& g.timeMask

/-- The value `Next` returns: `(time << timeShift) | machineIDShifted |
seq`, read from the (already updated) generator. -/
def composeId (g : Generator) : Nat :=
  (shl64 g.time g.timeShift) ||| g.machineIDShifted ||| g.seq

/-- The three-way `switch` of the Go method `Next`: adopt a strictly
newer `newTime` with `seq = 0`; otherwise on `seq == sequenceMask` bump
`time` by one with `seq = 0`; otherwise increment `seq`.  `time++` and
`seq++` are `uint64` increments, hence taken modulo `2 ^ 64`. -/
def nextState (g : Generator) (newTime : Nat) : Generator :=
  if newTime > g.time then
    { g with time := newTime, seq := 0 }
  else if g.seq = g.sequenceMask then
    { g with time := (g.time + 1) % U64, seq := 0 }
  else
    { g with seq := (g.seq + 1) % U64 }

/-- The Go method `Next`, as the pure function its critical section
computes: derive `newTime`, run the three-way `switch`, and return the
updated generator together with the composed identifier. -/
def Next (g : Generator) (now : Nat) : Generator × Nat :=
  let g' := nextState g (g.generateTime now)
  (g', composeId g')

/-- The generator state after a sequence of `Next` calls whose clock
readings are the entries of `nows`. -/
def runNext (g : Generator) : List Nat → Generator
  | [] => g
  | now :: rest => runNext (Next g now).1 rest

/-- The generator states after each call of a sequence of `Next` calls. -/
def statesNext (g : Generator) : List Nat → List Generator
  | [] => []
  | now :: rest => (Next g now).1 :: statesNext (Next g now).1 rest

/-- The identifiers returned by a sequence of `Next` calls. -/
def outputsNext (g : Generator) : List Nat → List Nat
  | [] => []
  | now :: rest => (Next g now).2 :: outputsNext (Next g now).1 rest

/-- The spec's three-way decision (section 4.3), stated on the mutable
state `(lastTime, seq)` given the derived `newTime`: adopt a strictly
newer time with `seq = 0`; otherwise on sequence exhaustion force
`lastTime` one tick forward with `seq = 0`; otherwise increment `seq`.
The state fields are `uint64`, so the increments wrap modulo `2 ^ 64`. -/
def specUpdate (sequenceMask lastTime seq newTime : Nat) : Nat × Nat :=
  if newTime > lastTime then
    (newTime, 0)
  else if seq = sequenceMask then
    ((lastTime + 1) % U64, 0)
  else
    (lastTime, (seq + 1) % U64)

/-- The spec's composition formula (sections 4.3 and 6):
`(lastTime << timeShift) | machineIDShifted | seq`. -/
def specCompose (timeShift machineIDShifted lastTime seq : Nat) : Nat :=
  (shl64 lastTime timeShift) ||| machineIDShifted ||| seq

/-! Basic facts about the 64-bit operations. -/

/-- A left shift by fewer than 64 bits is multiplication truncated to 64 bits. -/
theorem shl64_of_lt {s : Nat} (x : Nat) (h : s < 64) : shl64 x s = x * 2 ^ s % U64 := by
  unfold shl64
  rw [if_neg (by omega), Nat.shiftLeft_eq]

/-- A left shift by 64 or more bits yields 0. -/
theorem shl64_of_ge {s : Nat} (x : Nat) (h : 64 ≤ s) : shl64 x s = 0 := by
  unfold shl64
  rw [if_pos h]

/-- A right shift by fewer than 64 bits is division by the power of two. -/
theorem shr64_of_lt {s : Nat} (x : Nat) (h : s < 64) : shr64 x s = x / 2 ^ s := by
  unfold shr64
  rw [if_neg (by omega), Nat.shiftRight_eq_div_pow]

/-- On a genuine 64-bit value, `shr64` agrees with the mathematical shift
for every shift count. -/
theorem shr64_eq {x : Nat} (s : Nat) (hx : x < U64) : shr64 x s = x >>> s := by
  unfold shr64
  split
  · rw [Nat.shiftRight_eq_div_pow]
    refine (Nat.div_eq_of_lt (lt_of_lt_of_le hx ?_)).symm
    exact Nat.pow_le_pow_right (by norm_num) (by assumption)
  · rfl

/-- The result of `sub64` is a 64-bit value. -/
theorem sub64_lt (a b : Nat) : sub64 a b < U64 := by
  unfold sub64
  exact Nat.mod_lt _ (by unfold U64; positivity)

/-- Wrapping subtraction of `tb ≤ 64` from 64 is exact. -/
theorem sub64_64 {tb : Nat} (h : tb ≤ 64) : sub64 64 tb = 64 - tb := by
  unfold sub64 U64
  omega

/-- The signed-negation mask trick produces `2 ^ b - 1` for `b ≤ 63`. -/
theorem maskOf_eq {b : Nat} (h : b ≤ 63) : maskOf b = 2 ^ b - 1 := by
  have h1 : 1 ≤ 2 ^ b := Nat.one_le_two_pow
  have h2 : 2 ^ b ≤ 2 ^ 63 := Nat.pow_le_pow_right (by norm_num) h
  unfold maskOf not64
  rw [shl64_of_lt _ (by omega)]
  unfold U64
  norm_num at h2 ⊢
  omega

/-- Every mask the constructor computes is a 64-bit value. -/
theorem maskOf_lt (b : Nat) : maskOf b < U64 := by
  unfold maskOf not64
  have : 0 < U64 := by unfold U64; positivity
  omega

/-- Disjoint bit ranges make bitwise OR an addition: if `a` is a multiple
of `2 ^ k` and `b` fits in `k` bits, `a ||| b = a + b`. -/
theorem lor_eq_add_of_dvd {k a b : Nat} (hd : 2 ^ k ∣ a) (hb : b < 2 ^ k) :
    a ||| b = a + b := by
  obtain ⟨c, rfl⟩ := hd
  apply Nat.eq_of_testBit_eq
  intro j
  rw [Nat.testBit_lor, Nat.testBit_mul_pow_two_add c hb j]
  by_cases hj : j < k
  · rw [if_pos hj, Nat.testBit_mul_pow_two]
    have : ¬ j ≥ k := by omega
    simp [this]
  · rw [if_neg hj, Nat.testBit_mul_pow_two]
    have hbj : b.testBit j = false :=
      Nat.testBit_lt_two_pow
        (lt_of_lt_of_le hb (Nat.pow_le_pow_right (by norm_num) (Nat.le_of_not_lt hj)))
    have : j ≥ k := Nat.le_of_not_lt hj
    simp [this, hbj]

/-! Destructuring a successful construction. -/

/-- Every field of a generator returned by `New`, in terms of the
post-default bit widths it carries. -/
theorem New_ok_fields {cfg : Config} {g : Generator} (h : New cfg = Except.ok g) :
    g.time = 0 ∧ g.seq = 0 ∧
    1 ≤ g.machineBits ∧ 1 ≤ g.sequenceBits ∧
    (g.sequenceBits + g.machineBits + g.timeBits) % U64 = MaxBits ∧
    g.nanoSecondsShift = sub64 64 g.timeBits ∧
    g.machineShift = g.sequenceBits ∧
    g.timeShift = (g.sequenceBits + g.machineBits) % U64 ∧
    cfg.MachineID ≤ maskOf g.machineBits ∧
    g.machineIDShifted = shl64 cfg.MachineID g.sequenceBits ∧
    g.sequenceMask = maskOf g.sequenceBits ∧
    g.timeMask = maskOf g.timeBits ∧
    g.epochStartNano = cfg.EpochStartUnixSeconds * 1000000000 % U64 := by
  simp only [New] at h
  set mb := (if cfg.MachineBits = 0 then DefaultMachineBits else cfg.MachineBits) with hmbd
  set sb := (if cfg.SequenceBits = 0 then DefaultSequenceBits else cfg.SequenceBits) with hsbd
  set tb := (if cfg.TimeBits = 0 then sub64 (sub64 MaxBits mb) sb else cfg.TimeBits) with htbd
  have hmb1 : 1 ≤ mb := by
    rw [hmbd]
    unfold DefaultMachineBits
    split <;> omega
  have hsb1 : 1 ≤ sb := by
    rw [hsbd]
    unfold DefaultSequenceBits
    split <;> omega
  split at h
  · exact absurd h (by simp)
  · rename_i hsum
    split at h
    · exact absurd h (by simp)
    · rename_i hmid
      rw [Except.ok.injEq] at h
      subst h
      refine ⟨rfl, rfl, hmb1, hsb1, ?_, rfl, rfl, rfl, ?_, rfl, rfl, rfl, rfl⟩
      · show (sb + mb + tb) % U64 = MaxBits
        omega
      · show cfg.MachineID ≤ maskOf mb
        omega

/-- The parameter facts every trace proof needs, for a generator whose
post-default bit widths sum to 63 exactly (the spec's section 3 layout
invariant).  `M` is the configured machine ID. -/
structure Std63 (g : Generator) (M : Nat) : Prop where
  mb_pos : 1 ≤ g.machineBits
  sb_pos : 1 ≤ g.sequenceBits
  sum63 : g.machineBits + g.sequenceBits + g.timeBits = 63
  mshift : g.machineShift = g.sequenceBits
  tshift : g.timeShift = g.sequenceBits + g.machineBits
  smask : g.sequenceMask = 2 ^ g.sequenceBits - 1
  tmask : g.timeMask = 2 ^ g.timeBits - 1
  mid_lt : M < 2 ^ g.machineBits
  mid_eq : g.machineIDShifted = M * 2 ^ g.sequenceBits

/-- A generator built by `New` whose post-default bit widths sum to 63
exactly satisfies all the `Std63` parameter facts. -/
theorem New_ok_std63 {cfg : Config} {g : Generator} (h : New cfg = Except.ok g)
    (h63 : g.machineBits + g.sequenceBits + g.timeBits = 63) :
    Std63 g cfg.MachineID := by
  obtain ⟨-, -, hmb, hsb, -, -, hms, hts, hmle, hmid, hsm, htm, -⟩ := New_ok_fields h
  have hble : g.machineBits ≤ 63 := by omega
  have hsble : g.sequenceBits ≤ 63 := by omega
  have htble : g.timeBits ≤ 63 := by omega
  have hMlt : cfg.MachineID < 2 ^ g.machineBits := by
    rw [maskOf_eq hble] at hmle
    have : 1 ≤ 2 ^ g.machineBits := Nat.one_le_two_pow
    omega
  refine ⟨hmb, hsb, h63, hms, ?_, ?_, ?_, hMlt, ?_⟩
  · rw [hts, Nat.mod_eq_of_lt]
    unfold U64
    norm_num
    omega
  · rw [hsm, maskOf_eq hsble]
  · rw [htm, maskOf_eq htble]
  · rw [hmid, shl64_of_lt _ (by omega), Nat.mod_eq_of_lt]
    calc cfg.MachineID * 2 ^ g.sequenceBits
        < 2 ^ g.machineBits * 2 ^ g.sequenceBits := by
          exact (Nat.mul_lt_mul_right (by positivity)).mpr hMlt
      _ = 2 ^ (g.machineBits + g.sequenceBits) := by rw [Nat.pow_add]
      _ ≤ 2 ^ 64 := Nat.pow_le_pow_right (by norm_num) (by omega)
      _ = U64 := rfl

/-! Preservation of the layout parameters across calls. -/

/-- The three-way decision only ever touches `time` and `seq`; every
layout parameter survives a call unchanged. -/
theorem nextState_preserves (g : Generator) (nt : Nat) :
    (nextState g nt).machineIDShifted = g.machineIDShifted ∧
    (nextState g nt).epochStartNano = g.epochStartNano ∧
    (nextState g nt).machineBits = g.machineBits ∧
    (nextState g nt).sequenceBits = g.sequenceBits ∧
    (nextState g nt).timeBits = g.timeBits ∧
    (nextState g nt).machineShift = g.machineShift ∧
    (nextState g nt).timeShift = g.timeShift ∧
    (nextState g nt).sequenceMask = g.sequenceMask ∧
    (nextState g nt).timeMask = g.timeMask ∧
    (nextState g nt).nanoSecondsShift = g.nanoSecondsShift := by
  unfold nextState
  split
  · exact ⟨rfl, rfl, rfl, rfl, rfl, rfl, rfl, rfl, rfl, rfl⟩
  · split
    · exact ⟨rfl, rfl, rfl, rfl, rfl, rfl, rfl, rfl, rfl, rfl⟩
    · exact ⟨rfl, rfl, rfl, rfl, rfl, rfl, rfl, rfl, rfl, rfl⟩

/-- The `Std63` parameter facts survive a call. -/
theorem Std63.next {g : Generator} {M : Nat} (h : Std63 g M) (nt : Nat) :
    Std63 (nextState g nt) M := by
  obtain ⟨p1, p2, p3, p4, p5, p6, p7, p8, p9, p10⟩ := nextState_preserves g nt
  exact ⟨p3 ▸ h.mb_pos, p4 ▸ h.sb_pos, by rw [p3, p4, p5]; exact h.sum63,
    by rw [p6, p4]; exact h.mshift, by rw [p7, p4, p3]; exact h.tshift,
    by rw [p8, p4]; exact h.smask, by rw [p9, p5]; exact h.tmask,
    p3 ▸ h.mid_lt, by rw [p1, p4]; exact h.mid_eq⟩

/-! Derived numeric facts. -/

/-- The shift of the time field is at most 63 (the time field may be 0
bits wide when the other two widths already sum to 63). -/
theorem Std63.ts_le {g : Generator} {M : Nat} (h : Std63 g M) :
    g.sequenceBits + g.machineBits ≤ 63 := by
  have := h.mb_pos
  have := h.sb_pos
  have := h.sum63
  omega

/-- With both other fields at least one bit wide, the time field is at
most 61 bits wide. -/
theorem Std63.tb_le {g : Generator} {M : Nat} (h : Std63 g M) : g.timeBits ≤ 61 := by
  have := h.mb_pos
  have := h.sb_pos
  have := h.sum63
  omega

/-- A sequence value within the mask fits in `sequenceBits` bits. -/
theorem Std63.seq_lt {g : Generator} {M : Nat} (h : Std63 g M)
    (hs : g.seq ≤ g.sequenceMask) : g.seq < 2 ^ g.sequenceBits := by
  rw [h.smask] at hs
  have : 1 ≤ 2 ^ g.sequenceBits := Nat.one_le_two_pow
  omega

/-- The sequence-within-mask invariant survives a call, for any generator
whose sequence mask is a 64-bit value. -/
theorem seq_le_nextState {g : Generator} (nt : Nat) (hmask : g.sequenceMask < U64)
    (hs : g.seq ≤ g.sequenceMask) :
    (nextState g nt).seq ≤ (nextState g nt).sequenceMask := by
  unfold nextState
  split
  · exact Nat.zero_le _
  · split
    · exact Nat.zero_le _
    · rename_i h1 h2
      show (g.seq + 1) % U64 ≤ g.sequenceMask
      rw [Nat.mod_eq_of_lt (by omega)]
      omega

/-! The value of a composed identifier. -/

/-- The composed identifier, with the bitwise operations resolved into
arithmetic: the stored time is truncated to `timeBits + 1` bits by the
64-bit overflow of the shift, and the three fields occupy disjoint bit
ranges. -/
theorem composeId_eq_mod {g : Generator} {M : Nat} (h : Std63 g M)
    (hs : g.seq ≤ g.sequenceMask) :
    composeId g =
      g.time % 2 ^ (g.timeBits + 1) * 2 ^ (g.sequenceBits + g.machineBits) +
        M * 2 ^ g.sequenceBits + g.seq := by
  have h62 := h.ts_le
  have hseq_lt := h.seq_lt hs
  have hlt1 : M * 2 ^ g.sequenceBits < 2 ^ (g.sequenceBits + g.machineBits) := by
    calc M * 2 ^ g.sequenceBits
        < 2 ^ g.machineBits * 2 ^ g.sequenceBits :=
          (Nat.mul_lt_mul_right (by positivity)).mpr h.mid_lt
      _ = 2 ^ (g.sequenceBits + g.machineBits) := by rw [← pow_add, Nat.add_comm]
  have hdvd2 : 2 ^ g.sequenceBits ∣
      g.time % 2 ^ (g.timeBits + 1) * 2 ^ (g.sequenceBits + g.machineBits) +
        M * 2 ^ g.sequenceBits :=
    dvd_add (Dvd.dvd.mul_left (pow_dvd_pow 2 (Nat.le_add_right _ _)) _) (dvd_mul_left _ _)
  have hU : U64 = 2 ^ (g.timeBits + 1) * 2 ^ (g.sequenceBits + g.machineBits) := by
    unfold U64
    rw [← pow_add]
    congr 1
    have := h.sum63
    omega
  unfold composeId
  rw [h.tshift, h.mid_eq, shl64_of_lt _ (by omega), hU, Nat.mul_mod_mul_right,
    lor_eq_add_of_dvd (dvd_mul_left _ _) hlt1, lor_eq_add_of_dvd hdvd2 hseq_lt]

/-- When the stored time has not overflowed past `2 * timeMask + 1`, the
composed identifier is exactly the three shifted fields added up. -/
theorem composeId_eq_of_le {g : Generator} {M : Nat} (h : Std63 g M)
    (hs : g.seq ≤ g.sequenceMask) (ht : g.time ≤ 2 * g.timeMask + 1) :
    composeId g =
      g.time * 2 ^ (g.sequenceBits + g.machineBits) + M * 2 ^ g.sequenceBits + g.seq := by
  rw [composeId_eq_mod h hs, Nat.mod_eq_of_lt]
  rw [h.tmask] at ht
  have e : (2 : Nat) ^ (g.timeBits + 1) = 2 ^ g.timeBits * 2 := pow_succ 2 g.timeBits
  have : 1 ≤ 2 ^ g.timeBits := Nat.one_le_two_pow
  omega

/-- Extracting the machine field from a composed identifier recovers the
machine ID, in every state with a within-mask sequence value (the time
field may have overflowed arbitrarily). -/
theorem composeId_extract {g : Generator} {M : Nat} (h : Std63 g M)
    (hs : g.seq ≤ g.sequenceMask) :
    composeId g >>> g.sequenceBits &&& (2 ^ g.machineBits - 1) = M := by
  have hseq_lt := h.seq_lt hs
  rw [composeId_eq_mod h hs]
  have e : g.time % 2 ^ (g.timeBits + 1) * 2 ^ (g.sequenceBits + g.machineBits) +
      M * 2 ^ g.sequenceBits + g.seq =
      g.seq + 2 ^ g.sequenceBits * (2 ^ g.machineBits * (g.time % 2 ^ (g.timeBits + 1)) + M) := by
    rw [pow_add]
    ring
  rw [e, Nat.shiftRight_eq_div_pow, Nat.add_mul_div_left _ _ (by positivity),
    Nat.div_eq_of_lt hseq_lt, Nat.zero_add, Nat.and_pow_two_sub_one_eq_mod,
    Nat.mul_add_mod, Nat.mod_eq_of_lt h.mid_lt]

/-- While the stored time is within the time mask, every composed
identifier is below `2 ^ 63` (its top bit is 0). -/
theorem composeId_lt_two_pow_63 {g : Generator} {M : Nat} (h : Std63 g M)
    (hs : g.seq ≤ g.sequenceMask) (ht : g.time ≤ g.timeMask) :
    composeId g < 2 ^ 63 := by
  have hseq_lt := h.seq_lt hs
  have htt : g.time + 1 ≤ 2 ^ g.timeBits := by
    rw [h.tmask] at ht
    have : 1 ≤ 2 ^ g.timeBits := Nat.one_le_two_pow
    omega
  have f1 : (g.time + 1) * 2 ^ (g.sequenceBits + g.machineBits) ≤
      2 ^ g.timeBits * 2 ^ (g.sequenceBits + g.machineBits) :=
    Nat.mul_le_mul_right _ htt
  have f2 : (2 : Nat) ^ g.timeBits * 2 ^ (g.sequenceBits + g.machineBits) = 2 ^ 63 := by
    rw [← pow_add]
    congr 1
    have := h.sum63
    omega
  have f3 : (M + 1) * 2 ^ g.sequenceBits ≤ 2 ^ g.machineBits * 2 ^ g.sequenceBits :=
    Nat.mul_le_mul_right _ h.mid_lt
  have f4 : (2 : Nat) ^ g.machineBits * 2 ^ g.sequenceBits =
      2 ^ (g.sequenceBits + g.machineBits) := by rw [← pow_add, Nat.add_comm]
  rw [composeId_eq_of_le h hs (by omega), Nat.succ_mul] at *
  rw [f2] at f1
  rw [f4] at f3
  omega

/-- The sequence mask of a standard-layout generator is a 64-bit value. -/
theorem Std63.smask_lt {g : Generator} {M : Nat} (h : Std63 g M) :
    g.sequenceMask < U64 := by
  rw [h.smask]
  have h1 : g.sequenceBits ≤ 63 := by
    have := h.ts_le
    have := h.mb_pos
    omega
  have h2 : (2 : Nat) ^ g.sequenceBits ≤ 2 ^ 63 := Nat.pow_le_pow_right (by norm_num) h1
  have h3 : (2 : Nat) ^ 63 < 2 ^ 64 := by norm_num
  unfold U64
  omega

/-- Composing after overwriting the time and resetting the sequence. -/
theorem composeId_update_time {g : Generator} {M : Nat} (h : Std63 g M) (t' : Nat)
    (ht' : t' ≤ 2 * g.timeMask + 1) :
    composeId { g with time := t', seq := 0 } =
      t' * 2 ^ (g.sequenceBits + g.machineBits) + M * 2 ^ g.sequenceBits := by
  have h' : Std63 { g with time := t', seq := 0 } M :=
    ⟨h.mb_pos, h.sb_pos, h.sum63, h.mshift, h.tshift, h.smask, h.tmask, h.mid_lt, h.mid_eq⟩
  simpa using composeId_eq_of_le h' (Nat.zero_le _) ht'

/-- Composing after overwriting only the sequence. -/
theorem composeId_update_seq {g : Generator} {M : Nat} (h : Std63 g M) (s' : Nat)
    (hs' : s' ≤ g.sequenceMask) (ht : g.time ≤ 2 * g.timeMask + 1) :
    composeId { g with seq := s' } =
      g.time * 2 ^ (g.sequenceBits + g.machineBits) + M * 2 ^ g.sequenceBits + s' := by
  have h' : Std63 { g with seq := s' } M :=
    ⟨h.mb_pos, h.sb_pos, h.sum63, h.mshift, h.tshift, h.smask, h.tmask, h.mid_lt, h.mid_eq⟩
  simpa using composeId_eq_of_le h' hs' ht

/-- The single-step monotonicity of `Next`: as long as neither the
pre-call nor the post-call stored time exceeds `2 * timeMask + 1` (so the
shifted time field has not overflowed 64 bits), the newly composed
identifier strictly exceeds the previously composed one. -/
theorem composeId_lt_nextState {g : Generator} {M nt : Nat} (h : Std63 g M)
    (hs : g.seq ≤ g.sequenceMask) (ht : g.time ≤ 2 * g.timeMask + 1)
    (ht' : (nextState g nt).time ≤ 2 * g.timeMask + 1) :
    composeId g < composeId (nextState g nt) := by
  have hseq_lt := h.seq_lt hs
  have hQP : 2 ^ g.sequenceBits ≤ 2 ^ (g.sequenceBits + g.machineBits) :=
    Nat.pow_le_pow_right (by norm_num) (Nat.le_add_right _ _)
  have hbase := composeId_eq_of_le h hs ht
  have hsm_lt := h.smask_lt
  have hU : 2 * g.timeMask + 1 + 1 < U64 := by
    rw [h.tmask]
    have h1 : (2 : Nat) ^ g.timeBits ≤ 2 ^ 61 := Nat.pow_le_pow_right (by norm_num) h.tb_le
    have h2 : (2 : Nat) ^ 61 < 2 ^ 64 := by norm_num
    unfold U64
    omega
  unfold nextState at ht' ⊢
  by_cases h1 : nt > g.time
  · rw [if_pos h1] at ht' ⊢
    rw [composeId_update_time h nt ht', hbase]
    have hstep : (g.time + 1) * 2 ^ (g.sequenceBits + g.machineBits) ≤
        nt * 2 ^ (g.sequenceBits + g.machineBits) := Nat.mul_le_mul_right _ (by omega)
    rw [Nat.succ_mul] at hstep
    omega
  · rw [if_neg h1] at ht' ⊢
    by_cases h2 : g.seq = g.sequenceMask
    · rw [if_pos h2] at ht' ⊢
      have hmod : (g.time + 1) % U64 = g.time + 1 := Nat.mod_eq_of_lt (by omega)
      rw [hmod] at ht' ⊢
      rw [composeId_update_time h (g.time + 1) ht', hbase, Nat.succ_mul]
      omega
    · rw [if_neg h2] at ht' ⊢
      have hs1 : g.seq + 1 ≤ g.sequenceMask := by omega
      have hmod : (g.seq + 1) % U64 = g.seq + 1 := Nat.mod_eq_of_lt (by omega)
      rw [hmod]
      rw [composeId_update_seq h (g.seq + 1) hs1 ht, hbase]
      omega

/-! Trace-level lemmas. -/

/-- Both layout facts and the sequence invariant hold at every state a
trace passes through. -/
theorem statesNext_inv {M : Nat} :
    ∀ (nows : List Nat) (g : Generator), Std63 g M → g.seq ≤ g.sequenceMask →
      ∀ h ∈ statesNext g nows, Std63 h M ∧ h.seq ≤ h.sequenceMask
  | [], _, _, _ => by
      intro h hm
      simp [statesNext] at hm
  | now :: rest, g, hstd, hs => by
      intro h hm
      rcases List.mem_cons.mp hm with he | hm'
      · subst he
        exact ⟨hstd.next _, seq_le_nextState _ hstd.smask_lt hs⟩
      · exact statesNext_inv rest (nextState g (g.generateTime now)) (hstd.next _)
          (seq_le_nextState _ hstd.smask_lt hs) h hm'

/-- Every output of a trace is the composition of the state the call left
behind. -/
theorem outputsNext_eq_map :
    ∀ (nows : List Nat) (g : Generator),
      outputsNext g nows = (statesNext g nows).map composeId
  | [], _ => rfl
  | now :: rest, g => by
      simp only [outputsNext, statesNext, List.map_cons]
      rw [outputsNext_eq_map rest]
      rfl

/-- Along any call sequence in which the stored time never exceeds
`2 * timeMask + 1`, each composed identifier strictly exceeds the
previous one, starting from the composition of the initial state. -/
theorem chain_composeId {M : Nat} :
    ∀ (nows : List Nat) (g : Generator), Std63 g M → g.seq ≤ g.sequenceMask →
      g.time ≤ 2 * g.timeMask + 1 →
      (∀ h ∈ statesNext g nows, h.time ≤ 2 * g.timeMask + 1) →
      List.Chain (· < ·) (composeId g) (outputsNext g nows)
  | [], _, _, _, _, _ => List.Chain.nil
  | now :: rest, g, hstd, hs, ht, hb => by
      have hb1 : (nextState g (g.generateTime now)).time ≤ 2 * g.timeMask + 1 :=
        hb (Next g now).1 (List.mem_cons_self _ _)
      have hstep := composeId_lt_nextState hstd hs ht hb1
      obtain ⟨-, -, -, -, -, -, -, -, htm, -⟩ :=
        nextState_preserves g (g.generateTime now)
      show List.Chain (· < ·) (composeId g)
        ((Next g now).2 :: outputsNext (Next g now).1 rest)
      refine List.Chain.cons hstep ?_
      exact chain_composeId rest (nextState g (g.generateTime now)) (hstd.next _)
        (seq_le_nextState _ hstd.smask_lt hs) (by rw [htm]; exact hb1)
        (by
          intro h hm
          rw [htm]
          exact hb h (List.mem_cons_of_mem _ hm))

/-- The fields `Next` never writes are constant along any trace. -/
theorem runNext_preserves :
    ∀ (nows : List Nat) (g : Generator),
      (runNext g nows).machineIDShifted = g.machineIDShifted ∧
      (runNext g nows).machineShift = g.machineShift ∧
      (runNext g nows).sequenceMask = g.sequenceMask
  | [], _ => ⟨rfl, rfl, rfl⟩
  | now :: rest, g => by
      obtain ⟨a, b, c⟩ := runNext_preserves rest (Next g now).1
      obtain ⟨p1, -, -, -, -, p6, -, p8, -, -⟩ :=
        nextState_preserves g (g.generateTime now)
      exact ⟨a.trans p1, b.trans p6, c.trans p8⟩

/-- The sequence-within-mask invariant holds after any trace. -/
theorem runNext_seq_le :
    ∀ (nows : List Nat) (g : Generator), g.sequenceMask < U64 →
      g.seq ≤ g.sequenceMask → (runNext g nows).seq ≤ (runNext g nows).sequenceMask
  | [], _, _, hs => hs
  | now :: rest, g, hm, hs => by
      obtain ⟨-, -, -, -, -, -, -, p8, -, -⟩ :=
        nextState_preserves g (g.generateTime now)
      exact runNext_seq_le rest (Next g now).1
        (show (nextState g (g.generateTime now)).sequenceMask < U64 by rw [p8]; exact hm)
        (seq_le_nextState _ hm hs)

/-- The bit widths and the time mask are constant across every state a
trace passes through. -/
theorem statesNext_bits :
    ∀ (nows : List Nat) (g : Generator), ∀ h ∈ statesNext g nows,
      h.sequenceBits = g.sequenceBits ∧ h.machineBits = g.machineBits ∧
        h.timeMask = g.timeMask
  | [], _ => by
      intro h hm
      simp [statesNext] at hm
  | now :: rest, g => by
      intro h hm
      obtain ⟨-, -, p3, p4, -, -, -, -, p9, -⟩ :=
        nextState_preserves g (g.generateTime now)
      rcases List.mem_cons.mp hm with he | hm'
      · subst he
        exact ⟨p4, p3, p9⟩
      · obtain ⟨a, b, c⟩ := statesNext_bits rest (Next g now).1 h hm'
        exact ⟨a.trans p4, b.trans p3, c.trans p9⟩

/-! Claim theorems. -/

/-- The configuration of the spec's default-layout scenario: only the
machine ID is supplied, everything else defaults. -/
def defaultCfg : Config :=
  { MachineID := 1, EpochStartUnixSeconds := 0, MachineBits := 0,
    SequenceBits := 0, TimeBits := 0 }

/-- The generator `New` builds from `defaultCfg`. -/
def defaultGen : Generator :=
  { time := 0, seq := 0, machineIDShifted := 4096, epochStartNano := 0,
    machineBits := 10, sequenceBits := 12, timeBits := 41, machineShift := 12,
    timeShift := 22, sequenceMask := 4095, timeMask := 2199023255551,
    nanoSecondsShift := 23 }

/-- C5: each `Next` call updates the state by exactly the spec's three-way
decision on the freshly derived `newTime` versus the stored `lastTime`
(adopt-and-reset, forced increment on exhaustion, or sequence increment),
and returns `(lastTime << timeShift) | machineIDShifted | seq` composed
from the updated state.  The state fields are `uint64`, so the increments
of the decision wrap modulo `2 ^ 64`. -/
theorem c5_next_matches_spec (g : Generator) (now : Nat) :
    ((Next g now).1.time, (Next g now).1.seq) =
      specUpdate g.sequenceMask g.time g.seq (g.generateTime now) ∧
    (Next g now).2 =
      specCompose g.timeShift g.machineIDShifted (Next g now).1.time (Next g now).1.seq := by
  constructor
  · show ((nextState g (g.generateTime now)).time, (nextState g (g.generateTime now)).seq) = _
    unfold nextState specUpdate
    split
    · rfl
    · split
      · rfl
      · rfl
  · show composeId (nextState g (g.generateTime now)) =
      specCompose g.timeShift g.machineIDShifted (nextState g (g.generateTime now)).time
        (nextState g (g.generateTime now)).seq
    unfold nextState
    split
    · rfl
    · split
      · rfl
      · rfl

/-- C6: the derived time field value equals the spec formula
`((now − epochStart) >> (64 − timeBits)) & timeMask`, where the epoch
start is the configured seconds converted to nanoseconds modulo `2 ^ 64`,
and the derived value never exceeds `timeMask`.  The hypothesis
`timeBits ≤ 64` is what makes the spec's exact shift count `64 − timeBits`
meaningful (it holds for every layout the spec describes). -/
theorem c6_generate_time_spec (cfg : Config) (g : Generator) (now : Nat)
    (hok : New cfg = Except.ok g) (htb : g.timeBits ≤ 64) :
    g.generateTime now =
      (((now + U64 - cfg.EpochStartUnixSeconds * 1000000000 % U64) % U64) >>>
        (64 - g.timeBits)) &&& g.timeMask ∧
    g.generateTime now ≤ g.timeMask := by
  obtain ⟨-, -, -, -, -, hnano, -, -, -, -, -, -, hepoch⟩ := New_ok_fields hok
  constructor
  · unfold Generator.generateTime
    rw [hepoch, hnano, sub64_64 htb, shr64_eq _ (sub64_lt _ _)]
    unfold sub64
    rw [Nat.mod_mod_of_dvd _ dvd_rfl]
  · exact Nat.and_le_right

/-- Witness for C6 at the default configuration and a concrete clock
reading. -/
theorem c6_witness :
    New defaultCfg = Except.ok defaultGen ∧ defaultGen.timeBits ≤ 64 ∧
    (defaultGen.generateTime 1000000000 =
      (((1000000000 + U64 - defaultCfg.EpochStartUnixSeconds * 1000000000 % U64) % U64) >>>
        (64 - defaultGen.timeBits)) &&& defaultGen.timeMask ∧
    defaultGen.generateTime 1000000000 ≤ defaultGen.timeMask) :=
  ⟨rfl, by decide, c6_generate_time_spec defaultCfg defaultGen 1000000000 rfl (by decide)⟩

/-- C10: in every reachable state of a constructed generator (which
starts at `seq = 0`), the invariant `seq ≤ sequenceMask` holds: the only
increment branch runs under the guard `seq ≠ sequenceMask`, so the bound
is preserved even though the code never masks `seq`. -/
theorem c10_seq_invariant (cfg : Config) (g : Generator) (nows : List Nat)
    (hok : New cfg = Except.ok g) :
    (runNext g nows).seq ≤ (runNext g nows).sequenceMask := by
  obtain ⟨-, hseq, -, -, -, -, -, -, -, -, hsm, -, -⟩ := New_ok_fields hok
  exact runNext_seq_le nows g (by rw [hsm]; exact maskOf_lt _)
    (by rw [hseq]; exact Nat.zero_le _)

/-- Witness for C10 on a concrete three-call trace. -/
theorem c10_witness :
    New defaultCfg = Except.ok defaultGen ∧
    (runNext defaultGen [0, 0, 0]).seq ≤ (runNext defaultGen [0, 0, 0]).sequenceMask :=
  ⟨rfl, c10_seq_invariant defaultCfg defaultGen [0, 0, 0] rfl⟩

/-- C1 (amended): for a constructed generator whose post-default bit
widths sum to 63 exactly (the spec's own layout invariant), the
identifiers of any call sequence are strictly increasing as long as the
stored time never exceeds `2 * timeMask + 1` along the trace, i.e. as
long as the shifted time field has not overflowed the 64-bit word. -/
theorem c1_strictly_increasing_of_no_overflow (cfg : Config) (g : Generator)
    (nows : List Nat) (hok : New cfg = Except.ok g)
    (h63 : g.machineBits + g.sequenceBits + g.timeBits = 63)
    (hbound : ∀ h ∈ statesNext g nows, h.time ≤ 2 * g.timeMask + 1) :
    List.Pairwise (· < ·) (outputsNext g nows) := by
  have hstd := New_ok_std63 hok h63
  obtain ⟨htime, hseq, -⟩ := New_ok_fields hok
  have hchain := chain_composeId nows g hstd (by rw [hseq]; exact Nat.zero_le _)
    (by rw [htime]; exact Nat.zero_le _) hbound
  have hchain' : List.Chain' (· < ·) (composeId g :: outputsNext g nows) := hchain
  exact List.chain'_iff_pairwise.mp hchain'.tail

/-- Witness for C1 on a concrete three-call trace of the default
configuration. -/
theorem c1_witness :
    New defaultCfg = Except.ok defaultGen ∧
    defaultGen.machineBits + defaultGen.sequenceBits + defaultGen.timeBits = 63 ∧
    (∀ h ∈ statesNext defaultGen [0, 0, 0], h.time ≤ 2 * defaultGen.timeMask + 1) ∧
    List.Pairwise (· < ·) (outputsNext defaultGen [0, 0, 0]) :=
  ⟨rfl, by decide, by decide,
    c1_strictly_increasing_of_no_overflow defaultCfg defaultGen [0, 0, 0] rfl
      (by decide) (by decide)⟩

/-- A 63-bit-layout configuration with a one-bit time field, under which
sequence exhaustion overflows the shifted time field after a handful of
calls. -/
def cexCfg1 : Config :=
  { MachineID := 1, EpochStartUnixSeconds := 0, MachineBits := 61,
    SequenceBits := 1, TimeBits := 1 }

/-- The generator `New` builds from `cexCfg1`. -/
def cexGen1 : Generator :=
  { time := 0, seq := 0, machineIDShifted := 2, epochStartNano := 0,
    machineBits := 61, sequenceBits := 1, timeBits := 1, machineShift := 1,
    timeShift := 62, sequenceMask := 1, timeMask := 1, nanoSecondsShift := 63 }

/-- Counterexample to C1 as stated: on this accepted configuration, seven
calls (one clock reading at `2 ^ 63` nanoseconds, then six at 0) drive the
stored time to 4, whose shifted value wraps to 0 modulo `2 ^ 64`, so the
seventh identifier is smaller than the sixth. -/
theorem c1_counterexample :
    New cexCfg1 = Except.ok cexGen1 ∧
    ¬ List.Pairwise (· < ·) (outputsNext cexGen1 [2 ^ 63, 0, 0, 0, 0, 0, 0]) :=
  ⟨rfl, by decide⟩

/-- C3 (amended): for a constructed generator with the 63-bit layout,
every identifier returned while the stored time stays within `timeMask`
is strictly below `2 ^ 63`, i.e. has bit 63 equal to 0. -/
theorem c3_top_bit_zero_of_time_in_mask (cfg : Config) (g : Generator)
    (nows : List Nat) (hok : New cfg = Except.ok g)
    (h63 : g.machineBits + g.sequenceBits + g.timeBits = 63)
    (hbound : ∀ h ∈ statesNext g nows, h.time ≤ g.timeMask) :
    ∀ v ∈ outputsNext g nows, v < 2 ^ 63 := by
  have hstd := New_ok_std63 hok h63
  obtain ⟨-, hseq, -⟩ := New_ok_fields hok
  intro v hv
  rw [outputsNext_eq_map] at hv
  obtain ⟨h, hm, rfl⟩ := List.mem_map.mp hv
  obtain ⟨hstd', hs'⟩ :=
    statesNext_inv nows g hstd (by rw [hseq]; exact Nat.zero_le _) h hm
  obtain ⟨-, -, htm⟩ := statesNext_bits nows g h hm
  exact composeId_lt_two_pow_63 hstd' hs' (by rw [htm]; exact hbound h hm)

/-- Witness for C3 on a concrete three-call trace of the default
configuration. -/
theorem c3_witness :
    New defaultCfg = Except.ok defaultGen ∧
    defaultGen.machineBits + defaultGen.sequenceBits + defaultGen.timeBits = 63 ∧
    (∀ h ∈ statesNext defaultGen [0, 0, 0], h.time ≤ defaultGen.timeMask) ∧
    ∀ v ∈ outputsNext defaultGen [0, 0, 0], v < 2 ^ 63 :=
  ⟨rfl, by decide, by decide,
    c3_top_bit_zero_of_time_in_mask defaultCfg defaultGen [0, 0, 0] rfl
      (by decide) (by decide)⟩

/-- A 63-bit-layout configuration (machine ID 0) whose one-bit time field
is pushed past its mask by sequence exhaustion within three calls. -/
def cexCfg3 : Config :=
  { MachineID := 0, EpochStartUnixSeconds := 0, MachineBits := 61,
    SequenceBits := 1, TimeBits := 1 }

/-- The generator `New` builds from `cexCfg3`. -/
def cexGen3 : Generator :=
  { time := 0, seq := 0, machineIDShifted := 0, epochStartNano := 0,
    machineBits := 61, sequenceBits := 1, timeBits := 1, machineShift := 1,
    timeShift := 62, sequenceMask := 1, timeMask := 1, nanoSecondsShift := 63 }

/-- Counterexample to C3 as stated: after forced time advancement under
sequence exhaustion, the third call returns `2 ^ 63`, whose bit 63 is 1. -/
theorem c3_counterexample :
    New cexCfg3 = Except.ok cexGen3 ∧
    (outputsNext cexGen3 [2 ^ 63, 0, 0])[2]? = some (2 ^ 63) ∧
    ¬ (2 ^ 63 : Nat) < 2 ^ 63 ∧ (2 ^ 63 : Nat).testBit 63 = true :=
  ⟨rfl, by decide, by decide, by decide⟩

/-- C7 (amended): for a constructed generator with the 63-bit layout,
extracting the machine field from any identifier of any trace — shifting
right by `sequenceBits` and masking to `machineBits` bits — recovers the
configured machine ID, in every reachable state (even past time-field
overflow, which cannot corrupt the machine field). -/
theorem c7_machine_field_roundtrip (cfg : Config) (g : Generator) (nows : List Nat)
    (hok : New cfg = Except.ok g)
    (h63 : g.machineBits + g.sequenceBits + g.timeBits = 63) :
    ∀ v ∈ outputsNext g nows,
      v >>> g.sequenceBits &&& (2 ^ g.machineBits - 1) = cfg.MachineID := by
  have hstd := New_ok_std63 hok h63
  obtain ⟨-, hseq, -⟩ := New_ok_fields hok
  intro v hv
  rw [outputsNext_eq_map] at hv
  obtain ⟨h, hm, rfl⟩ := List.mem_map.mp hv
  obtain ⟨hstd', hs'⟩ :=
    statesNext_inv nows g hstd (by rw [hseq]; exact Nat.zero_le _) h hm
  obtain ⟨hsb, hmb, -⟩ := statesNext_bits nows g h hm
  rw [← hsb, ← hmb]
  exact composeId_extract hstd' hs'

/-- Witness for C7 on a concrete one-call trace of the default
configuration (the spec's default-layout scenario). -/
theorem c7_witness :
    New defaultCfg = Except.ok defaultGen ∧
    defaultGen.machineBits + defaultGen.sequenceBits + defaultGen.timeBits = 63 ∧
    ∀ v ∈ outputsNext defaultGen [0],
      v >>> defaultGen.sequenceBits &&& (2 ^ defaultGen.machineBits - 1) =
        defaultCfg.MachineID :=
  ⟨rfl, by decide,
    c7_machine_field_roundtrip defaultCfg defaultGen [0] rfl (by decide)⟩

/-- A configuration `New` accepts because its bit-width sum only wraps to
63 modulo `2 ^ 64`; the machine ID 5 is then shifted out of the word
entirely. -/
def cexCfg7 : Config :=
  { MachineID := 5, EpochStartUnixSeconds := 0, MachineBits := 2 ^ 63,
    SequenceBits := 2 ^ 63, TimeBits := 63 }

/-- The generator `New` builds from `cexCfg7`: `machineIDShifted` is 0
because the shift count `2 ^ 63` exceeds 64. -/
def cexGen7 : Generator :=
  { time := 0, seq := 0, machineIDShifted := 0, epochStartNano := 0,
    machineBits := 2 ^ 63, sequenceBits := 2 ^ 63, timeBits := 63,
    machineShift := 2 ^ 63, timeShift := 0, sequenceMask := 2 ^ 64 - 1,
    timeMask := 2 ^ 63 - 1, nanoSecondsShift := 1 }

/-- Counterexample to C7 as stated: `New` accepts `cexCfg7`, the first
call returns identifier 1, and the documented shift-and-mask extraction
yields 0 rather than the configured machine ID 5. -/
theorem c7_counterexample :
    New cexCfg7 = Except.ok cexGen7 ∧
    (Next cexGen7 0).2 = 1 ∧
    (1 : Nat) >>> cexGen7.sequenceBits &&& (2 ^ cexGen7.machineBits - 1) = 0 ∧
    (0 : Nat) ≠ cexCfg7.MachineID := by
  refine ⟨rfl, rfl, ?_, by decide⟩
  have h1 : (1 : Nat) >>> cexGen7.sequenceBits = 0 := by
    rw [show cexGen7.sequenceBits = 2 ^ 63 from rfl, Nat.shiftRight_eq_div_pow]
    exact Nat.div_eq_of_lt (Nat.one_lt_two_pow (by norm_num))
  rw [h1]
  exact Nat.zero_and _

/-- C8 (amended): for a constructed generator with the 63-bit layout, the
derived constants equal the spec formulas exactly — `machineShift =
sequenceBits`, `timeShift = sequenceBits + machineBits`, `sequenceMask =
2 ^ sequenceBits − 1`, `timeMask = 2 ^ timeBits − 1` — and the
signed-negation mask expression equals `2 ^ bits − 1` at each of the
three bit widths. -/
theorem c8_derived_constants (cfg : Config) (g : Generator)
    (hok : New cfg = Except.ok g)
    (h63 : g.machineBits + g.sequenceBits + g.timeBits = 63) :
    g.machineShift = g.sequenceBits ∧
    g.timeShift = g.sequenceBits + g.machineBits ∧
    g.sequenceMask = 2 ^ g.sequenceBits - 1 ∧
    g.timeMask = 2 ^ g.timeBits - 1 ∧
    maskOf g.machineBits = 2 ^ g.machineBits - 1 ∧
    maskOf g.sequenceBits = 2 ^ g.sequenceBits - 1 ∧
    maskOf g.timeBits = 2 ^ g.timeBits - 1 := by
  have hstd := New_ok_std63 hok h63
  exact ⟨hstd.mshift, hstd.tshift, hstd.smask, hstd.tmask,
    maskOf_eq (by omega), maskOf_eq (by omega), maskOf_eq (by omega)⟩

/-- Witness for C8 at the default configuration. -/
theorem c8_witness :
    New defaultCfg = Except.ok defaultGen ∧
    defaultGen.machineBits + defaultGen.sequenceBits + defaultGen.timeBits = 63 ∧
    (defaultGen.machineShift = defaultGen.sequenceBits ∧
    defaultGen.timeShift = defaultGen.sequenceBits + defaultGen.machineBits ∧
    defaultGen.sequenceMask = 2 ^ defaultGen.sequenceBits - 1 ∧
    defaultGen.timeMask = 2 ^ defaultGen.timeBits - 1 ∧
    maskOf defaultGen.machineBits = 2 ^ defaultGen.machineBits - 1 ∧
    maskOf defaultGen.sequenceBits = 2 ^ defaultGen.sequenceBits - 1 ∧
    maskOf defaultGen.timeBits = 2 ^ defaultGen.timeBits - 1) :=
  ⟨rfl, by decide, c8_derived_constants defaultCfg defaultGen rfl (by decide)⟩

/-- A wrapped-sum configuration `New` accepts on which `timeShift` is 0,
not `sequenceBits + machineBits = 2 ^ 64`. -/
def cexCfg8 : Config :=
  { MachineID := 0, EpochStartUnixSeconds := 0, MachineBits := 2 ^ 63,
    SequenceBits := 2 ^ 63, TimeBits := 63 }

/-- Counterexample to C8 as stated: `New` accepts `cexCfg8`, whose
`timeShift` wraps to 0 instead of the spec value `sequenceBits +
machineBits`. -/
theorem c8_counterexample :
    (New cexCfg8).map (fun g => g.timeShift) = Except.ok 0 ∧
    (0 : Nat) ≠ 2 ^ 63 + 2 ^ 63 :=
  ⟨rfl, by decide⟩

/-- C9 (amended): for a constructed generator with the 63-bit layout,
`MachineID()` returns exactly the configured machine ID in every
reachable state; the fields it reads are never written by `Next`, and the
accessor itself is a pure read in this embedding. -/
theorem c9_machine_id_accessor (cfg : Config) (g : Generator) (nows : List Nat)
    (hok : New cfg = Except.ok g)
    (h63 : g.machineBits + g.sequenceBits + g.timeBits = 63) :
    (runNext g nows).MachineID = cfg.MachineID := by
  have hstd := New_ok_std63 hok h63
  obtain ⟨hmid, hms, -⟩ := runNext_preserves nows g
  unfold Generator.MachineID
  rw [hmid, hms, hstd.mshift, hstd.mid_eq]
  have hsb : g.sequenceBits ≤ 62 := by
    have := hstd.ts_le
    have := hstd.mb_pos
    omega
  rw [shr64_of_lt _ (by omega)]
  exact Nat.mul_div_cancel _ (by positivity)

/-- Witness for C9 after a concrete two-call trace of the default
configuration. -/
theorem c9_witness :
    New defaultCfg = Except.ok defaultGen ∧
    defaultGen.machineBits + defaultGen.sequenceBits + defaultGen.timeBits = 63 ∧
    (runNext defaultGen [0, 0]).MachineID = defaultCfg.MachineID :=
  ⟨rfl, by decide,
    c9_machine_id_accessor defaultCfg defaultGen [0, 0] rfl (by decide)⟩

/-- A wrapped-sum configuration `New` accepts with machine ID 7, which
the shift by `2 ^ 63` then destroys. -/
def cexCfg9 : Config :=
  { MachineID := 7, EpochStartUnixSeconds := 0, MachineBits := 2 ^ 63,
    SequenceBits := 2 ^ 63, TimeBits := 63 }

/-- Counterexample to C9 as stated: `New` accepts `cexCfg9` but the
accessor returns 0, not the supplied machine ID 7. -/
theorem c9_counterexample :
    (New cexCfg9).map Generator.MachineID = Except.ok 0 ∧ cexCfg9.MachineID ≠ 0 :=
  ⟨rfl, by decide⟩

/-- The failing input of C2: `timeBits` left to default with
`machineBits + sequenceBits = 64 > 63`. -/
def bugCfg2 : Config :=
  { MachineID := 0, EpochStartUnixSeconds := 0, MachineBits := 32,
    SequenceBits := 32, TimeBits := 0 }

/-- C2 (code bug): the `timeBits` default `63 − machineBits −
sequenceBits` wraps to `2 ^ 64 − 33`, the `uint64` sum check then sees
63, and `New` succeeds although the exact bit-width sum is `2 ^ 64 + 63`,
not 63 — the configuration the claim requires to be rejected is
accepted. -/
theorem c2_wrapped_sum_accepted :
    (New bugCfg2).map (fun g => g.machineBits + g.sequenceBits + g.timeBits) =
      Except.ok (U64 + 63) ∧ U64 + 63 ≠ 63 :=
  ⟨rfl, by decide⟩

/-- The out-of-range input of C4, one past the default maximum. -/
def cfg1024 : Config :=
  { MachineID := 1024, EpochStartUnixSeconds := 0, MachineBits := 0,
    SequenceBits := 0, TimeBits := 0 }

/-- The boundary input of C4, the largest accepted machine ID. -/
def cfg1023 : Config :=
  { MachineID := 1023, EpochStartUnixSeconds := 0, MachineBits := 0,
    SequenceBits := 0, TimeBits := 0 }

/-- The generator `New` builds from `cfg1023`. -/
def gen1023 : Generator :=
  { time := 0, seq := 0, machineIDShifted := 4190208, epochStartNano := 0,
    machineBits := 10, sequenceBits := 12, timeBits := 41, machineShift := 12,
    timeShift := 22, sequenceMask := 4095, timeMask := 2199023255551,
    nanoSecondsShift := 23 }

/-- C4 (code bug): machine ID 1024 is rejected and 1023 accepted, exactly
as the claim says, but the error message renders the strict bound
`0 ≤ id < 1023`, which excludes the valid value 1023 instead of
communicating the inclusive range `[0, 1023]`. -/
theorem c4_error_message_off_by_one :
    New cfg1024 = Except.error (NewError.invalidMachineID 1023) ∧
    (NewError.invalidMachineID 1023).message =
      "invalid machine id; must be 0 ≤ id < 1023" ∧
    New cfg1023 = Except.ok gen1023 :=
  ⟨rfl, rfl, rfl⟩
